import Mathlib

/-!
Verification of the 1-D heat-equation calculator (`heating_eqn.py`).

The source program computes the transient temperature distribution along a
one-dimensional rod by explicit forward-time central-space stepping.  This
file shallowly embeds the program over exact rationals: Python floats become
`ℚ` (real-valued closed forms involving `π` and `√3` become `ℝ`), numpy rows
become `List ℚ`, a run's outcome (including the distinct uncaught-exception
sites of the source) becomes the inductive `RunOutcome`.
-/

namespace HeatCalc

/-- ASCII lower-casing of a string, mirroring Python `str.lower()` /
SQLite `lower(...)` on the ASCII material and shape names used by the program. -/
def lowerStr (s : String) : String := String.mk (s.data.map Char.toLower)

/-- One row of the `thermal_prop` table:
`(Conductivity, Diffusivity, Specific_Heat, Effusivity, Density)`. -/
structure MatProps where
  conductivity : ℚ
  diffusivity : ℚ
  specificHeat : ℚ
  effusivity : ℚ
  density : ℚ
deriving DecidableEq

/-- The seed dataset inserted into `Thermal.db` (source lines 273-304). -/
def thermalData : List (String × MatProps) :=
  [("Air", ⟨0.025, 19.4, 1004, 6, 1.29⟩),
   ("Aluminum", ⟨225.94, 91, 921, 23688, 2698⟩),
   ("Copper", ⟨397.48, 116, 385, 36983, 8940⟩),
   ("Gold", ⟨317.98, 129, 128, 28027, 19300⟩),
   ("Iron", ⟨71.965, 20.4, 448, 15924, 7870⟩),
   ("Magnesium", ⟨150.62, 86.2, 1004, 16221, 1740⟩),
   ("Nitrogen", ⟨0.026, 19.6, 1042, 6, 1.251⟩),
   ("Platnium", ⟨69.036, 24.1, 134, 14065, 21400⟩),
   ("Plutonium", ⟨8.201, 3.19, 134, 4592, 19200⟩),
   ("High Density Ployethylene", ⟨0.502, 0.23, 2301, 1048, 950⟩),
   ("Medium Density Ployethylene", ⟨0.414, 0.19, 2301, 944, 935⟩),
   ("Low Density Ployethylene", ⟨0.331, 0.17, 2092, 798, 920⟩),
   ("Polycarbonate", ⟨0.192, 0.09, 1674, 660, 1350⟩),
   ("Rock", ⟨1.757, 0.81, 837, 1955, 2600⟩),
   ("Silver", ⟨426.77, 172, 236, 32520, 10500⟩),
   ("Soil", ⟨0.837, 0.62, 1046, 1067, 1300⟩),
   ("Steam", ⟨0.023, 19.9, 1966, 5, 0.598⟩),
   ("Stainless Steel", ⟨22.928, 6.56, 460, 8955, 7600⟩),
   ("Mild Steel", ⟨41.84, 10.8, 502, 12760, 7750⟩),
   ("Carbon Steel", ⟨71.128, 19.7, 460, 16040, 7860⟩),
   ("Titanium", ⟨20.92, 8.89, 523, 7017, 4500⟩),
   ("Tungsten", ⟨196.65, 76.1, 134, 22543, 19300⟩),
   ("Uranium", ⟨26.443, 11.8, 117, 7694, 19100⟩),
   ("Water", ⟨0.603, 0.14, 4184, 1588, 1000⟩),
   ("Ice", ⟨2.092, 0.54, 4217, 2844, 917⟩),
   ("Wood Spruce With Grain", ⟨0.23, 0.45, 1255, 344, 410⟩),
   ("Wood Spruce Across Grain", ⟨0.126, 0.24, 1255, 254, 410⟩),
   ("Wood Teak With Grain", ⟨0.172, 0.12, 2301, 503, 640⟩),
   ("Wood Teak Across Grain", ⟨0.142, 0.12, 2301, 420, 540⟩),
   ("Wood Fir Across Grain", ⟨0.109, 0.11, 2301, 336, 450⟩),
   ("Wood Pine Acrosse Grain", ⟨0.13, 0.11, 2301, 398, 530⟩),
   ("Wood Maple Across Grain", ⟨0.176, 0.11, 2301, 536, 710⟩)]

/-- `Heat_Eqn.mat_constants` (source lines 89-115): case-insensitive lookup of
the material in the `thermal_prop` table; `none` models the `return None`
taken when the query comes back empty. -/
def mat_constants (name : String) : Option MatProps :=
  (thermalData.find? (fun r => lowerStr r.1 == lowerStr name)).map (fun r => r.2)

/-- On a failed lookup the source prints the full list of material names
(source lines 107-109, `SELECT Material from thermal_prop`). -/
def lookupFailureNames : List String := thermalData.map (fun r => r.1)

/-- The constructor arguments of `Heat_Eqn` that feed the solver
(source lines 25-68; `Gif`/`Graph` only select a renderer and are modelled
as the raw-field path, `Shape`/`Shape_Lengths` feed only `area`). -/
structure HeatConfig where
  material : String
  numberOfSteps : ℕ
  length : ℚ
  time : ℚ
  leftBoundary : ℚ
  rightBoundary : ℚ
  hatFunction : Bool
  temperature0 : Option ℚ
  locationOfTemp : Option ℚ
  lengthOfHatFunction : Option ℚ
deriving DecidableEq

/-- Line 50's constructor check: with `Hat_Function == True` and any of the
three hat parameters `None`, the source only prints
`Missing a parameter in relation to the hat function` and proceeds. -/
def hatWarning (cfg : HeatConfig) : Bool :=
  cfg.hatFunction &&
    (cfg.temperature0.isNone || cfg.locationOfTemp.isNone ||
      cfg.lengthOfHatFunction.isNone)

/-- `alphaprime = k / (c*rho)` (source line 128). -/
def alphaprime (p : MatProps) : ℚ := p.conductivity / (p.specificHeat * p.density)

/-- `dx = xf/m` (source line 130). -/
def dxOf (cfg : HeatConfig) : ℚ := cfg.length / (cfg.numberOfSteps : ℚ)

/-- `dt = (dx**2)/(2*alphaprime)` (source line 132, Von Neumann stability). -/
def dtOf (p : MatProps) (cfg : HeatConfig) : ℚ := (dxOf cfg) ^ 2 / (2 * alphaprime p)

/-- Number of rows of the field: `len(np.arange(0, tf, dt))`, the count of
samples `0, dt, 2*dt, ...` strictly below `tf`, i.e. `⌈tf/dt⌉` (0 when
`tf ≤ 0`). -/
def rowCount (p : MatProps) (cfg : HeatConfig) : ℕ :=
  (Int.ceil (cfg.time / dtOf p cfg)).toNat

/-- Python `int(...)`: truncation toward zero. -/
def pyTrunc (q : ℚ) : ℤ := if q < 0 then Int.ceil q else Int.floor q

/-- Resolution of one slice bound by Python/numpy slicing on an axis of
length `m` (positive step): a negative bound first has `m` added, then the
result is clamped to `[0, m]`. -/
def sliceIndex (m : ℕ) (a : ℤ) : ℕ :=
  (min (m : ℤ) (max 0 (if a < 0 then a + (m : ℤ) else a))).toNat

/-- The initial row written by the hat-function block (source lines 136-140):
`deltafunction = int(ceil(hl/2))`, `startingcondition = int(((loc/xf)*m)-1)`,
then `U[0, sc-delta : sc+delta] = T0` on the zero row, with the slice bounds
resolved by Python slicing (`sliceIndex`). -/
def hatRow (m : ℕ) (xf T0 loc hl : ℚ) : List ℚ :=
  let delta : ℤ := Int.ceil (hl / 2)
  let sc : ℤ := pyTrunc ((loc / xf) * (m : ℚ) - 1)
  let lo : ℕ := sliceIndex m (sc - delta)
  let hi : ℕ := sliceIndex m (sc + delta)
  (List.range m).map (fun i => if lo ≤ i ∧ i < hi then T0 else 0)

/-- The rate array `x` of one pass of the stepping loop (source lines
144-147), as a function of the node index: central second difference, with
the boundary temperatures as ghost values at the two edge nodes. -/
def rate (al dx bl br : ℚ) (m : ℕ) (row : List ℚ) (i : ℕ) : ℚ :=
  if i = 0 then al * (row.getD 1 0 - 2 * row.getD 0 0 + bl) / dx ^ 2
  else if i = m - 1 then
    al * (br - 2 * row.getD (m - 1) 0 + row.getD (m - 2) 0) / dx ^ 2
  else al * (row.getD (i + 1) 0 - 2 * row.getD i 0 + row.getD (i - 1) 0) / dx ^ 2

/-- One time step: `U[j+1,:] = U[j,:] + x[:]*dt` (source line 148). -/
def stepRow (al dx dt bl br : ℚ) (m : ℕ) (row : List ℚ) : List ℚ :=
  (List.range m).map (fun i => row.getD i 0 + rate al dx bl br m row i * dt)

/-- Row `j` of the field produced from initial row `row0`. -/
def heatIter (al dx dt bl br : ℚ) (m : ℕ) (row0 : List ℚ) (j : ℕ) : List ℚ :=
  (stepRow al dx dt bl br m)^[j] row0

/-- The full field `U` built by the stepping loop from initial row `row0`. -/
def fieldRows (p : MatProps) (cfg : HeatConfig) (row0 : List ℚ) : List (List ℚ) :=
  (List.range (rowCount p cfg)).map
    (heatIter (alphaprime p) (dxOf cfg) (dtOf p cfg)
      cfg.leftBoundary cfg.rightBoundary cfg.numberOfSteps row0)

/-- Line 124's guard `if k == None`: `k` is a float whenever the tuple
unpacking on line 123 succeeded, and a Python `float == None` comparison is
always `False`, so this guard can never fire. -/
def noneGuard (_k : ℚ) : Bool := false

/-- Outcome of a call to `Heat_Eqn.heateqn` on the raw-field path, keeping
the distinct uncaught-exception sites of the source apart:
`unpackCrash` = `TypeError` unpacking `None` at line 123; `guardReturn` =
the `return None` at line 126; `zeroDivCrash` = `ZeroDivisionError` at line
130 (`m == 0`); `arangeCrash` = the `np.arange` zero-step error at line 133
(`dt == 0`); `hatCrash` = `TypeError` in lines 137-139 on a missing hat
parameter; `indexCrash` = `IndexError` at line 140 (hat write with no rows)
or in the loop at lines 145-147 (`m < 2` with at least one step). -/
inductive RunOutcome where
  | unpackCrash : RunOutcome
  | guardReturn : RunOutcome
  | zeroDivCrash : RunOutcome
  | arangeCrash : RunOutcome
  | hatCrash : RunOutcome
  | indexCrash : RunOutcome
  | field : List (List ℚ) → RunOutcome
deriving DecidableEq

/-- `Heat_Eqn.heateqn` after a successful material lookup
(source lines 124-148 plus the `return U` at line 167). -/
def heateqnCore (p : MatProps) (cfg : HeatConfig) : RunOutcome :=
  if noneGuard p.conductivity then RunOutcome.guardReturn
  else if cfg.numberOfSteps = 0 then RunOutcome.zeroDivCrash
  else if dtOf p cfg = 0 then RunOutcome.arangeCrash
  else if cfg.hatFunction then
    match cfg.temperature0, cfg.locationOfTemp, cfg.lengthOfHatFunction with
    | some T0, some loc, some hl =>
        if rowCount p cfg = 0 then RunOutcome.indexCrash
        else if 2 ≤ rowCount p cfg ∧ cfg.numberOfSteps < 2 then RunOutcome.indexCrash
        else RunOutcome.field
          (fieldRows p cfg (hatRow cfg.numberOfSteps cfg.length T0 loc hl))
    | _, _, _ => RunOutcome.hatCrash
  else if 2 ≤ rowCount p cfg ∧ cfg.numberOfSteps < 2 then RunOutcome.indexCrash
  else RunOutcome.field (fieldRows p cfg (List.replicate cfg.numberOfSteps 0))

/-- `Heat_Eqn.heateqn` (source lines 116-167): the material lookup followed
by the solver core; a failed lookup makes the tuple unpacking at line 123
raise before the `None` guard is reached. -/
def heateqn (cfg : HeatConfig) : RunOutcome :=
  match mat_constants cfg.material with
  | Option.none => RunOutcome.unpackCrash
  | some p => heateqnCore p cfg

/-- The display-scale temperature `Th` (source lines 150-161): decided by
whether `Temperature_0` is `None`, never by the `Hat_Function` flag. -/
def computeTh (cfg : HeatConfig) : ℚ :=
  match cfg.temperature0 with
  | Option.none =>
      if cfg.rightBoundary ≥ cfg.leftBoundary then cfg.rightBoundary
      else cfg.leftBoundary
  | some T0 =>
      if T0 > cfg.leftBoundary ∧ T0 > cfg.rightBoundary then T0
      else if cfg.rightBoundary ≥ cfg.leftBoundary then cfg.rightBoundary
      else cfg.leftBoundary

/-- Node value at row `j`, node `i`, of the run continued for arbitrarily
many steps from the all-zero initial row (the no-hat initial condition). -/
def nodeTemp (p : MatProps) (cfg : HeatConfig) (j i : ℕ) : ℚ :=
  (heatIter (alphaprime p) (dxOf cfg) (dtOf p cfg) cfg.leftBoundary
    cfg.rightBoundary cfg.numberOfSteps
    (List.replicate cfg.numberOfSteps 0) j).getD i 0

/-- One step of the integer (scaled) recurrence: with the stability step
`dt = dx^2/(2*alphaprime)` the scheme reduces to averaging the two stencil
neighbours, so row `j` scaled by `2^j` is integer valued; `sc = 2^j` is the
scale of the incoming row. -/
def dyadicStep (m : ℕ) (bl br sc : ℤ) (row : List ℤ) : List ℤ :=
  (List.range m).map (fun i =>
    (if i = 0 then bl * sc else row.getD (i - 1) 0) +
    (if i = m - 1 then br * sc else row.getD (i + 1) 0))

/-- Row `j` of the integer recurrence, equal to `2^j` times row `j` of the
field started from the all-zero row with integer boundaries `bl`, `br`. -/
def dyadicIter (m : ℕ) (bl br : ℤ) : ℕ → List ℤ
  | 0 => List.replicate m 0
  | j + 1 => dyadicStep m bl br (2 ^ j) (dyadicIter m bl br j)

/-- `Heat_Eqn.area` (source lines 69-88) on a well-typed two-length profile:
case-insensitive shape dispatch; `none` models the `return None` of the
unsupported-shape branch; `np.pi` and `3**(1/2)` are the real constants. -/
noncomputable def area (shape : String) (a b : ℝ) : Option ℝ :=
  if lowerStr shape = "ellipse" then some (Real.pi * a * b)
  else if lowerStr shape = "rectangle" then some (a * b)
  else if lowerStr shape = "triangle" then some (Real.sqrt 3 / 4 * a ^ 2)
  else if lowerStr shape = "hexagon" then some (3 * Real.sqrt 3 / 2 * a ^ 2)
  else Option.none

/-- A dynamically-typed Python value: a float, or a tuple of values. -/
inductive PyVal where
  | num : ℝ → PyVal
  | tup : List PyVal → PyVal

/-- Source lines 52-54: when `len(list(Shape_Lengths)) == 1` the constructor
rebinds `a = Shape_Lengths` (the whole tuple, not its element) and stores
`Shape_Lengths = (a, 0)`. -/
def initShapeLengths (sl : List PyVal) : List PyVal :=
  if sl.length = 1 then [PyVal.tup sl, PyVal.num 0] else sl

/-- Python `v ** 2`: defined for a float, a `TypeError` (modelled `none`)
when `v` is a tuple. -/
noncomputable def pySq : PyVal → Option ℝ
  | PyVal.num x => some (x ^ 2)
  | PyVal.tup _ => Option.none

/-- The `a, b = self.Shape_Lengths` unpacking plus the `triangle`/`hexagon`
branches of `Heat_Eqn.area` (source lines 77, 82-85) under Python's dynamic
typing: these are the branches reached by a single-length shape profile.
(`a ** 2` on a tuple raises; the remaining shapes are outside the
single-length profiles this models.) -/
noncomputable def areaSingleLen (shape : String) (sl : List PyVal) : Option ℝ :=
  match sl with
  | [a, _b] =>
      if lowerStr shape = "triangle" then
        (pySq a).map (fun s => Real.sqrt 3 / 4 * s)
      else if lowerStr shape = "hexagon" then
        (pySq a).map (fun s => 3 * Real.sqrt 3 / 2 * s)
      else Option.none
  | _ => Option.none

/-- The initial row as C4 describes it: `centerIndex =
floor((location/length)*numberOfNodes) - 1`, `halfWidth = ceil(plateau/2)`,
and the index range `[centerIndex-halfWidth, centerIndex+halfWidth)` clamped
into `[0, numberOfNodes)` (never wrapped).  Stated from the claim's words,
for comparison against the source's `hatRow`. -/
def claimHatRow (m : ℕ) (xf T0 loc hl : ℚ) : List ℚ :=
  let hw : ℤ := Int.ceil (hl / 2)
  let c : ℤ := Int.floor ((loc / xf) * (m : ℚ)) - 1
  (List.range m).map (fun i =>
    if max 0 (min (m : ℤ) (c - hw)) ≤ (i : ℤ) ∧
        (i : ℤ) < max 0 (min (m : ℤ) (c + hw)) then T0 else 0)

/-- The Aluminum row of the seed dataset, as resolved by `mat_constants`. -/
def aluminumProps : MatProps := ⟨225.94, 91, 921, 23688, 2698⟩

/-- Scenario 5 of the spec: Aluminum, 10 nodes, length 1, totalTime 6000,
boundaries 100/100, no hat pulse. -/
def aluminumCfg : HeatConfig :=
  ⟨"Aluminum", 10, 1, 6000, 100, 100, false, Option.none, Option.none, Option.none⟩

/-- The field produced by the Aluminum scenario. -/
def aluminumField : List (List ℚ) :=
  fieldRows aluminumProps aluminumCfg (List.replicate 10 0)

/-! ### Basic list access lemmas -/

theorem getD_range_map {α : Type _} (d : α) (f : ℕ → α) {m i : ℕ} (hi : i < m) :
    ((List.range m).map f).getD i d = f i := by
  simp [List.getD, List.getElem?_map, List.getElem?_range, hi]

theorem getD_replicate_zero {m i : ℕ} : (List.replicate m (0 : ℚ)).getD i 0 = 0 := by
  simp [List.getD, List.getElem?_replicate]
  split <;> rfl

theorem getD_replicate_zero_int {m i : ℕ} : (List.replicate m (0 : ℤ)).getD i 0 = 0 := by
  simp [List.getD, List.getElem?_replicate]
  split <;> rfl

/-! ### The stepping kernel in averaged form

With the stability-limited step `dt = dx^2 / (2*alphaprime)` the
forward-Euler update collapses to averaging the two stencil neighbours
(ghost boundary values at the edges). -/

theorem stepRow_getD (al dx dt bl br : ℚ) (m : ℕ) (row : List ℚ) {i : ℕ}
    (hi : i < m) :
    (stepRow al dx dt bl br m row).getD i 0 =
      row.getD i 0 + rate al dx bl br m row i * dt := by
  unfold stepRow
  exact getD_range_map 0 _ hi

theorem stepRow_avg (al dx bl br : ℚ) (m : ℕ) (row : List ℚ)
    (hal : al ≠ 0) (hdx : dx ≠ 0) (hm : 2 ≤ m) {i : ℕ} (hi : i < m) :
    (stepRow al dx (dx ^ 2 / (2 * al)) bl br m row).getD i 0 =
      ((if i = 0 then bl else row.getD (i - 1) 0) +
        (if i = m - 1 then br else row.getD (i + 1) 0)) / 2 := by
  rw [stepRow_getD al dx _ bl br m row hi]
  unfold rate
  have hdx2 : dx ^ 2 ≠ 0 := pow_ne_zero 2 hdx
  by_cases h0 : i = 0
  · have hm1 : i ≠ m - 1 := by omega
    subst h0
    simp only [if_pos rfl, if_neg hm1]
    field_simp
    ring
  · by_cases h1 : i = m - 1
    · simp only [if_neg h0, if_pos h1]
      subst h1
      have e : m - 1 - 1 = m - 2 := by omega
      rw [e]
      field_simp
      ring
    · simp only [if_neg h0, if_neg h1]
      field_simp
      ring

/-- Node value of the zero-initialised run with both boundaries at `T`. -/
def uZero (al dx T : ℚ) (m : ℕ) (j i : ℕ) : ℚ :=
  (heatIter al dx (dx ^ 2 / (2 * al)) T T m (List.replicate m 0) j).getD i 0

theorem uZero_zero (al dx T : ℚ) (m j : ℕ) : uZero al dx T m 0 j = 0 := by
  unfold uZero heatIter
  simp [getD_replicate_zero]

theorem uZero_succ (al dx T : ℚ) (m : ℕ) (hal : al ≠ 0) (hdx : dx ≠ 0)
    (hm : 2 ≤ m) {i : ℕ} (hi : i < m) (j : ℕ) :
    uZero al dx T m (j + 1) i =
      ((if i = 0 then T else uZero al dx T m j (i - 1)) +
        (if i = m - 1 then T else uZero al dx T m j (i + 1))) / 2 := by
  unfold uZero heatIter
  rw [Function.iterate_succ_apply']
  exact stepRow_avg al dx T T m _ hal hdx hm hi

theorem uZero_bounds (al dx T : ℚ) (m : ℕ) (hal : al ≠ 0) (hdx : dx ≠ 0)
    (hm : 2 ≤ m) (hT : 0 ≤ T) :
    ∀ j i, i < m → 0 ≤ uZero al dx T m j i ∧ uZero al dx T m j i ≤ T := by
  intro j
  induction j with
  | zero => intro i _; rw [uZero_zero]; exact ⟨le_refl 0, hT⟩
  | succ j ih =>
    intro i hi
    rw [uZero_succ al dx T m hal hdx hm hi]
    have hL : 0 ≤ (if i = 0 then T else uZero al dx T m j (i - 1)) ∧
        (if i = 0 then T else uZero al dx T m j (i - 1)) ≤ T := by
      by_cases h0 : i = 0
      · rw [if_pos h0]; exact ⟨hT, le_refl T⟩
      · rw [if_neg h0]; exact ih (i - 1) (by omega)
    have hR : 0 ≤ (if i = m - 1 then T else uZero al dx T m j (i + 1)) ∧
        (if i = m - 1 then T else uZero al dx T m j (i + 1)) ≤ T := by
      by_cases h1 : i = m - 1
      · rw [if_pos h1]; exact ⟨hT, le_refl T⟩
      · rw [if_neg h1]; exact ih (i + 1) (by omega)
    constructor
    · have := hL.1; have := hR.1; linarith
    · have := hL.2; have := hR.2; linarith

theorem uZero_mono_succ (al dx T : ℚ) (m : ℕ) (hal : al ≠ 0) (hdx : dx ≠ 0)
    (hm : 2 ≤ m) (hT : 0 ≤ T) :
    ∀ j i, i < m → uZero al dx T m j i ≤ uZero al dx T m (j + 1) i := by
  intro j
  induction j with
  | zero =>
    intro i hi
    rw [uZero_zero]
    exact (uZero_bounds al dx T m hal hdx hm hT 1 i hi).1
  | succ j ih =>
    intro i hi
    rw [uZero_succ al dx T m hal hdx hm hi, uZero_succ al dx T m hal hdx hm hi]
    have hL : (if i = 0 then T else uZero al dx T m j (i - 1)) ≤
        (if i = 0 then T else uZero al dx T m (j + 1) (i - 1)) := by
      by_cases h0 : i = 0
      · rw [if_pos h0, if_pos h0]
      · rw [if_neg h0, if_neg h0]; exact ih (i - 1) (by omega)
    have hR : (if i = m - 1 then T else uZero al dx T m j (i + 1)) ≤
        (if i = m - 1 then T else uZero al dx T m (j + 1) (i + 1)) := by
      by_cases h1 : i = m - 1
      · rw [if_pos h1, if_pos h1]
      · rw [if_neg h1, if_neg h1]; exact ih (i + 1) (by omega)
    linarith

theorem uZero_mono (al dx T : ℚ) (m : ℕ) (hal : al ≠ 0) (hdx : dx ≠ 0)
    (hm : 2 ≤ m) (hT : 0 ≤ T) {a b : ℕ} (hab : a ≤ b) :
    ∀ i, i < m → uZero al dx T m a i ≤ uZero al dx T m b i := by
  induction b, hab using Nat.le_induction with
  | base => intro i _; exact le_refl _
  | succ b hb ih =>
    intro i hi
    exact le_trans (ih i hi) (uZero_mono_succ al dx T m hal hdx hm hT b i hi)

theorem uZero_contract (al dx T : ℚ) (m : ℕ) (hal : al ≠ 0) (hdx : dx ≠ 0)
    (hm : 2 ≤ m) (hT : 0 ≤ T) (j : ℕ) (M : ℚ) (hM : 0 ≤ M)
    (hbd : ∀ i, i < m → T - uZero al dx T m j i ≤ M) :
    ∀ i, i < m → T - uZero al dx T m (j + m) i ≤ (1 - (1 / 2) ^ m) * M := by
  have aux : ∀ s i, i < m → T - uZero al dx T m (j + s) i ≤ M := by
    intro s i hi
    have h1 : uZero al dx T m j i ≤ uZero al dx T m (j + s) i :=
      uZero_mono al dx T m hal hdx hm hT (Nat.le_add_right j s) i hi
    have := hbd i hi
    linarith
  have key : ∀ s, ∀ i, i < m → i + 1 ≤ s →
      T - uZero al dx T m (j + s) i ≤ (1 - (1 / 2) ^ (i + 1)) * M := by
    intro s
    induction s with
    | zero => intro i _ hs; omega
    | succ s ih =>
      intro i hi hs
      have hj : j + (s + 1) = (j + s) + 1 := by omega
      rw [hj, uZero_succ al dx T m hal hdx hm hi]
      by_cases h0 : i = 0
      · have hne : ¬(i = m - 1) := by omega
        rw [if_pos h0, if_neg hne]
        have ha := aux s (i + 1) (by omega)
        subst h0
        norm_num
        linarith
      · by_cases h1 : i = m - 1
        · rw [if_neg h0, if_pos h1]
          have ha := aux s (i - 1) (by omega)
          have hp : ((1 : ℚ) / 2) ^ (i + 1) ≤ (1 / 2) ^ 1 :=
            pow_le_pow_of_le_one (by norm_num) (by norm_num) (by omega)
          rw [pow_one] at hp
          nlinarith
        · rw [if_neg h0, if_neg h1]
          have hii : i - 1 + 1 = i := by omega
          have hIH := ih (i - 1) (by omega) (by omega)
          rw [hii] at hIH
          have ha := aux s (i + 1) (by omega)
          have hpow : ((1 : ℚ) / 2) ^ (i + 1) = (1 / 2) ^ i * (1 / 2) :=
            pow_succ _ _
          rw [hpow]
          linarith
  intro i hi
  have hk := key m i hi (by omega)
  have hp : ((1 : ℚ) / 2) ^ m ≤ (1 / 2) ^ (i + 1) :=
    pow_le_pow_of_le_one (by norm_num) (by norm_num) (by omega)
  nlinarith

theorem uZero_decay (al dx T : ℚ) (m : ℕ) (hal : al ≠ 0) (hdx : dx ≠ 0)
    (hm : 2 ≤ m) (hT : 0 ≤ T) :
    ∀ k, ∀ i, i < m →
      T - uZero al dx T m (m * k) i ≤ (1 - (1 / 2) ^ m) ^ k * T := by
  intro k
  induction k with
  | zero =>
    intro i _
    rw [Nat.mul_zero, uZero_zero, pow_zero]
    linarith
  | succ k ih =>
    have hq0 : (0 : ℚ) ≤ 1 - (1 / 2) ^ m := by
      have : ((1 : ℚ) / 2) ^ m ≤ 1 := pow_le_one₀ (by norm_num) (by norm_num)
      linarith
    have hM : 0 ≤ (1 - (1 / 2 : ℚ) ^ m) ^ k * T :=
      mul_nonneg (pow_nonneg hq0 k) hT
    have hc := uZero_contract al dx T m hal hdx hm hT (m * k) _ hM ih
    intro i hi
    have h2 := hc i hi
    have hmk : m * (k + 1) = m * k + m := by ring
    rw [hmk]
    calc T - uZero al dx T m (m * k + m) i
        ≤ (1 - (1 / 2) ^ m) * ((1 - (1 / 2) ^ m) ^ k * T) := h2
      _ = (1 - (1 / 2) ^ m) ^ (k + 1) * T := by ring

theorem uZero_tendsto (al dx T : ℚ) (m : ℕ) (hal : al ≠ 0) (hdx : dx ≠ 0)
    (hm : 2 ≤ m) (hT : 0 ≤ T) :
    ∀ i, i < m → ∀ ε : ℚ, 0 < ε →
      ∃ N, ∀ j, N ≤ j → T - uZero al dx T m j i ≤ ε := by
  intro i hi ε hε
  have hq0 : (0 : ℚ) ≤ 1 - (1 / 2) ^ m := by
    have : ((1 : ℚ) / 2) ^ m ≤ 1 := pow_le_one₀ (by norm_num) (by norm_num)
    linarith
  have hq1 : (1 - (1 / 2 : ℚ) ^ m) < 1 := by
    have : (0 : ℚ) < (1 / 2) ^ m := by positivity
    linarith
  obtain ⟨k, hk⟩ := exists_pow_lt_of_lt_one
    (show (0 : ℚ) < ε / (T + 1) by positivity) hq1
  refine ⟨m * k, fun j hj => ?_⟩
  have hmono : uZero al dx T m (m * k) i ≤ uZero al dx T m j i :=
    uZero_mono al dx T m hal hdx hm hT hj i hi
  have hdk := uZero_decay al dx T m hal hdx hm hT k i hi
  have hqk : (0 : ℚ) ≤ (1 - (1 / 2) ^ m) ^ k := pow_nonneg hq0 k
  have hstep : (1 - (1 / 2 : ℚ) ^ m) ^ k * T ≤ (1 - (1 / 2) ^ m) ^ k * (T + 1) := by
    nlinarith
  have hlt : (1 - (1 / 2 : ℚ) ^ m) ^ k * (T + 1) < ε := by
    have hT1 : (0 : ℚ) < T + 1 := by linarith
    calc (1 - (1 / 2 : ℚ) ^ m) ^ k * (T + 1) < (ε / (T + 1)) * (T + 1) := by
          exact mul_lt_mul_of_pos_right hk hT1
      _ = ε := by field_simp
  linarith

/-! ### Integer (dyadic) image of the zero-initialised run -/

theorem uZero_dyadic (al dx : ℚ) (m : ℕ) (hal : al ≠ 0) (hdx : dx ≠ 0)
    (hm : 2 ≤ m) (tz : ℤ) :
    ∀ j i, i < m →
      uZero al dx (tz : ℚ) m j i * 2 ^ j =
        ((dyadicIter m tz tz j).getD i 0 : ℚ) := by
  intro j
  induction j with
  | zero =>
    intro i _
    rw [uZero_zero]
    rw [show dyadicIter m tz tz 0 = List.replicate m 0 from rfl,
      getD_replicate_zero_int]
    norm_num
  | succ j ih =>
    intro i hi
    rw [uZero_succ al dx _ m hal hdx hm hi]
    rw [show dyadicIter m tz tz (j + 1) =
      dyadicStep m tz tz (2 ^ j) (dyadicIter m tz tz j) from rfl]
    unfold dyadicStep
    rw [getD_range_map 0 _ hi]
    by_cases h0 : i = 0
    · by_cases h1 : i = m - 1
      · omega
      · rw [if_pos h0, if_pos h0, if_neg h1, if_neg h1]
        have hih := ih (i + 1) (by omega)
        push_cast
        rw [pow_succ]
        nlinarith [hih]
    · by_cases h1 : i = m - 1
      · rw [if_neg h0, if_neg h0, if_pos h1, if_pos h1]
        have hih := ih (i - 1) (by omega)
        push_cast
        rw [pow_succ]
        nlinarith [hih]
      · rw [if_neg h0, if_neg h0, if_neg h1, if_neg h1]
        have hihL := ih (i - 1) (by omega)
        have hihR := ih (i + 1) (by omega)
        push_cast
        rw [pow_succ]
        nlinarith [hihL, hihR]

/-! ### Numeric evaluation of the Aluminum scenario -/

theorem alphaprime_aluminum : alphaprime aluminumProps = 11297 / 124242900 := by
  norm_num [alphaprime, aluminumProps]

theorem dx_aluminum : dxOf aluminumCfg = 1 / 10 := by
  norm_num [dxOf, aluminumCfg]

theorem dt_aluminum : dtOf aluminumProps aluminumCfg = 1242429 / 22594 := by
  rw [dtOf, dx_aluminum, alphaprime_aluminum]
  norm_num

theorem rowCount_aluminum : rowCount aluminumProps aluminumCfg = 110 := by
  rw [rowCount, dt_aluminum]
  have hceil : Int.ceil ((aluminumCfg.time : ℚ) / (1242429 / 22594)) = 110 := by
    rw [Int.ceil_eq_iff]
    constructor
    · show ((110 : ℤ) : ℚ) - 1 < _
      norm_num [aluminumCfg]
    · show _ ≤ ((110 : ℤ) : ℚ)
      norm_num [aluminumCfg]
  rw [hceil]
  rfl

theorem nodeTemp_eq_uZero (p : MatProps) (cfg : HeatConfig) (T : ℚ)
    (hbl : cfg.leftBoundary = T) (hbr : cfg.rightBoundary = T) (j i : ℕ) :
    nodeTemp p cfg j i = uZero (alphaprime p) (dxOf cfg) T cfg.numberOfSteps j i := by
  unfold nodeTemp uZero dtOf
  rw [hbl, hbr]

theorem aluminumField_row {j : ℕ} (hj : j < 110) :
    aluminumField.getD j [] =
      heatIter (alphaprime aluminumProps) (dxOf aluminumCfg)
        (dtOf aluminumProps aluminumCfg) 100 100 10 (List.replicate 10 0) j := by
  unfold aluminumField fieldRows
  rw [rowCount_aluminum]
  exact getD_range_map [] _ hj

set_option maxRecDepth 1000000 in
theorem aluminum_dyadic_bound :
    ∀ i, i < 10 → 98 * 2 ^ 109 ≤ (dyadicIter 10 100 100 109).getD i 0 ∧
      (dyadicIter 10 100 100 109).getD i 0 ≤ 100 * 2 ^ 109 := by decide

set_option maxRecDepth 1000000 in
theorem aluminum_lastRow_bound :
    ∀ i, i < 10 → |100 - (aluminumField.getD 109 []).getD i 0| ≤ 2 := by
  intro i hi
  have hal : alphaprime aluminumProps ≠ 0 := by
    rw [alphaprime_aluminum]; norm_num
  have hdx : dxOf aluminumCfg ≠ 0 := by
    rw [dx_aluminum]; norm_num
  have hb := uZero_dyadic (alphaprime aluminumProps) (dxOf aluminumCfg) 10 hal hdx
    (by norm_num) 100 109 i hi
  push_cast at hb
  rw [aluminumField_row (by norm_num)]
  have hentry : (heatIter (alphaprime aluminumProps) (dxOf aluminumCfg)
      (dtOf aluminumProps aluminumCfg) 100 100 10 (List.replicate 10 0) 109).getD i 0 =
      uZero (alphaprime aluminumProps) (dxOf aluminumCfg) 100 10 109 i := rfl
  rw [hentry]
  obtain ⟨hlo, hhi⟩ := aluminum_dyadic_bound i hi
  have hlo' : ((98 * 2 ^ 109 : ℤ) : ℚ) ≤ ((dyadicIter 10 100 100 109).getD i 0 : ℚ) :=
    Int.cast_le.mpr hlo
  have hhi' : ((dyadicIter 10 100 100 109).getD i 0 : ℚ) ≤ ((100 * 2 ^ 109 : ℤ) : ℚ) :=
    Int.cast_le.mpr hhi
  push_cast at hlo' hhi'
  rw [← hb] at hlo' hhi'
  have h2 : (0 : ℚ) < 2 ^ 109 := by positivity
  have h98 : (98 : ℚ) ≤ uZero (alphaprime aluminumProps) (dxOf aluminumCfg) 100 10 109 i :=
    le_of_mul_le_mul_right (by linarith) h2
  have h100 : uZero (alphaprime aluminumProps) (dxOf aluminumCfg) 100 10 109 i ≤ 100 :=
    le_of_mul_le_mul_right (by linarith) h2
  rw [abs_le]
  constructor <;> linarith

/-! ### Plumbing: which branch of `heateqn` produces a field -/

theorem heatIter_succ (al dx dt bl br : ℚ) (m : ℕ) (row0 : List ℚ) (j : ℕ) :
    heatIter al dx dt bl br m row0 (j + 1) =
      stepRow al dx dt bl br m (heatIter al dx dt bl br m row0 j) := by
  unfold heatIter
  exact Function.iterate_succ_apply' _ _ _

theorem heatIter_length (al dx dt bl br : ℚ) (m : ℕ) (row0 : List ℚ)
    (h : row0.length = m) : ∀ j, (heatIter al dx dt bl br m row0 j).length = m := by
  intro j
  induction j with
  | zero => exact h
  | succ j _ => rw [heatIter_succ]; simp [stepRow]

theorem hatRow_length (m : ℕ) (xf T0 loc hl : ℚ) : (hatRow m xf T0 loc hl).length = m := by
  simp [hatRow]

theorem fieldRows_length (p : MatProps) (cfg : HeatConfig) (row0 : List ℚ) :
    (fieldRows p cfg row0).length = rowCount p cfg := by
  simp [fieldRows]

theorem fieldRows_getD (p : MatProps) (cfg : HeatConfig) (row0 : List ℚ) {j : ℕ}
    (hj : j < rowCount p cfg) :
    (fieldRows p cfg row0).getD j [] =
      heatIter (alphaprime p) (dxOf cfg) (dtOf p cfg) cfg.leftBoundary
        cfg.rightBoundary cfg.numberOfSteps row0 j := by
  unfold fieldRows
  exact getD_range_map [] _ hj

theorem heateqnCore_field_noHat (p : MatProps) (cfg : HeatConfig)
    (hm : cfg.numberOfSteps ≠ 0) (hdt : dtOf p cfg ≠ 0)
    (hhat : cfg.hatFunction = false)
    (hcr : ¬(2 ≤ rowCount p cfg ∧ cfg.numberOfSteps < 2)) :
    heateqnCore p cfg =
      RunOutcome.field (fieldRows p cfg (List.replicate cfg.numberOfSteps 0)) := by
  unfold heateqnCore
  rw [if_neg (by simp [noneGuard]), if_neg hm, if_neg hdt, if_neg (by simp [hhat]),
    if_neg hcr]

theorem heateqnCore_field_hat (p : MatProps) (cfg : HeatConfig) (T0 loc hl : ℚ)
    (hm : cfg.numberOfSteps ≠ 0) (hdt : dtOf p cfg ≠ 0)
    (hhat : cfg.hatFunction = true)
    (h0 : cfg.temperature0 = some T0) (h1 : cfg.locationOfTemp = some loc)
    (h2 : cfg.lengthOfHatFunction = some hl)
    (hn : rowCount p cfg ≠ 0)
    (hcr : ¬(2 ≤ rowCount p cfg ∧ cfg.numberOfSteps < 2)) :
    heateqnCore p cfg = RunOutcome.field
      (fieldRows p cfg (hatRow cfg.numberOfSteps cfg.length T0 loc hl)) := by
  unfold heateqnCore
  rw [if_neg (by simp [noneGuard]), if_neg hm, if_neg hdt, if_pos (by simp [hhat]),
    h0, h1, h2]
  dsimp only
  rw [if_neg hn, if_neg hcr]

theorem heateqn_eq_core (cfg : HeatConfig) (p : MatProps)
    (hp : mat_constants cfg.material = some p) :
    heateqn cfg = heateqnCore p cfg := by
  unfold heateqn
  rw [hp]

/-- Any produced field comes from `fieldRows` applied to some initial row. -/
theorem heateqn_field_inv (cfg : HeatConfig) (p : MatProps) (F : List (List ℚ))
    (hp : mat_constants cfg.material = some p)
    (hF : heateqn cfg = RunOutcome.field F) :
    ∃ row0, row0.length = cfg.numberOfSteps ∧ F = fieldRows p cfg row0 := by
  rw [heateqn_eq_core cfg p hp] at hF
  unfold heateqnCore at hF
  by_cases hg : noneGuard p.conductivity = true
  · rw [if_pos hg] at hF; exact absurd hF (by simp)
  rw [if_neg hg] at hF
  by_cases hm : cfg.numberOfSteps = 0
  · rw [if_pos hm] at hF; exact absurd hF (by simp)
  rw [if_neg hm] at hF
  by_cases hdt : dtOf p cfg = 0
  · rw [if_pos hdt] at hF; exact absurd hF (by simp)
  rw [if_neg hdt] at hF
  by_cases hhat : cfg.hatFunction = true
  · rw [if_pos hhat] at hF
    rcases h0 : cfg.temperature0 with _ | T0 <;>
      rcases h1 : cfg.locationOfTemp with _ | loc <;>
        rcases h2 : cfg.lengthOfHatFunction with _ | hl <;>
          rw [h0, h1, h2] at hF <;>
            dsimp only at hF <;>
            (try split_ifs at hF with hA hB) <;>
            first
              | exact absurd hF (fun hh => RunOutcome.noConfusion hh)
              | (injection hF with h; exact ⟨_, hatRow_length _ _ _ _ _, h.symm⟩)
  · rw [if_neg hhat] at hF
    split_ifs at hF with hA <;>
      first
        | exact absurd hF (fun hh => RunOutcome.noConfusion hh)
        | (injection hF with h; exact ⟨_, List.length_replicate _ _, h.symm⟩)

/-! ### Claim theorems -/

/-- C1: for every configuration and resolved material properties, the time
step used by the stepping engine equals `dx^2 / (2*alphaprime)` with
`dx = length / numberOfNodes` and `alphaprime = conductivity /
(specificHeat * density)`; the stored diffusivity field of the material is
not used: replacing it changes neither the time step nor any outcome of the
solver core. -/
theorem heat_c1 (p : MatProps) (cfg : HeatConfig) :
    dtOf p cfg =
      (cfg.length / (cfg.numberOfSteps : ℚ)) ^ 2 /
        (2 * (p.conductivity / (p.specificHeat * p.density))) ∧
    ∀ d : ℚ,
      dtOf (MatProps.mk p.conductivity d p.specificHeat p.effusivity p.density) cfg
        = dtOf p cfg ∧
      heateqnCore (MatProps.mk p.conductivity d p.specificHeat p.effusivity p.density) cfg
        = heateqnCore p cfg := by
  refine ⟨rfl, fun d => ⟨?_, ?_⟩⟩
  · cases p; rfl
  · cases p; rfl

/-- C2: whenever `heateqn` produces a field, every row `j+1` equals row `j`
plus the rate array computed entirely from row `j` times `dt`: the interior
nodes use the central second difference, the left edge node substitutes the
left boundary temperature for the missing left neighbour, the right edge
node substitutes the right boundary temperature for the missing right
neighbour; no value of row `j+1` appears on the right-hand side. -/
theorem heat_c2 (cfg : HeatConfig) (p : MatProps) (F : List (List ℚ))
    (hp : mat_constants cfg.material = some p)
    (hF : heateqn cfg = RunOutcome.field F) :
    ∀ j i, j + 1 < F.length → i < cfg.numberOfSteps →
      (F.getD (j + 1) []).getD i 0 =
        (F.getD j []).getD i 0 +
          (if i = 0 then
              alphaprime p * ((F.getD j []).getD 1 0 -
                2 * (F.getD j []).getD 0 0 + cfg.leftBoundary) / (dxOf cfg) ^ 2
            else if i = cfg.numberOfSteps - 1 then
              alphaprime p * (cfg.rightBoundary -
                2 * (F.getD j []).getD (cfg.numberOfSteps - 1) 0 +
                (F.getD j []).getD (cfg.numberOfSteps - 2) 0) / (dxOf cfg) ^ 2
            else
              alphaprime p * ((F.getD j []).getD (i + 1) 0 -
                2 * (F.getD j []).getD i 0 +
                (F.getD j []).getD (i - 1) 0) / (dxOf cfg) ^ 2) * dtOf p cfg := by
  obtain ⟨row0, _, hFeq⟩ := heateqn_field_inv cfg p F hp hF
  subst hFeq
  intro j i hj hi
  rw [fieldRows_length] at hj
  rw [fieldRows_getD p cfg row0 hj, fieldRows_getD p cfg row0 (by omega),
    heatIter_succ, stepRow_getD _ _ _ _ _ _ _ hi]
  rfl

/-- Witness configuration for C2: Aluminum, 2 nodes, length 1, 2000 s. -/
def c2cfg : HeatConfig :=
  ⟨"Aluminum", 2, 1, 2000, 100, 100, false, Option.none, Option.none, Option.none⟩

theorem dt_c2cfg : dtOf aluminumProps c2cfg = 31060725 / 22594 := by
  rw [dtOf]
  norm_num [dxOf, alphaprime, aluminumProps, c2cfg]

theorem rowCount_c2cfg : rowCount aluminumProps c2cfg = 2 := by
  rw [rowCount, dt_c2cfg]
  have hceil : Int.ceil ((c2cfg.time : ℚ) / (31060725 / 22594)) = 2 := by
    rw [Int.ceil_eq_iff]
    constructor
    · show ((2 : ℤ) : ℚ) - 1 < _
      norm_num [c2cfg]
    · show _ ≤ ((2 : ℤ) : ℚ)
      norm_num [c2cfg]
  rw [hceil]
  rfl

/-- The field produced by the C2 witness configuration. -/
def c2F : List (List ℚ) := fieldRows aluminumProps c2cfg (List.replicate 2 0)

theorem heateqn_c2cfg : heateqn c2cfg = RunOutcome.field c2F := by
  rw [heateqn_eq_core c2cfg aluminumProps rfl]
  exact heateqnCore_field_noHat aluminumProps c2cfg (by norm_num [c2cfg])
    (by rw [dt_c2cfg]; norm_num) rfl (by rw [rowCount_c2cfg]; norm_num [c2cfg])

theorem heat_c2_witness :
    heateqn c2cfg = RunOutcome.field c2F ∧
    (c2F.getD 1 []).getD 0 0 =
      (c2F.getD 0 []).getD 0 0 +
        alphaprime aluminumProps * ((c2F.getD 0 []).getD 1 0 -
          2 * (c2F.getD 0 []).getD 0 0 + c2cfg.leftBoundary) / (dxOf c2cfg) ^ 2 *
          dtOf aluminumProps c2cfg := by
  refine ⟨heateqn_c2cfg, ?_⟩
  have h := heat_c2 c2cfg aluminumProps c2F rfl heateqn_c2cfg 0 0
    (by rw [show c2F.length = 2 from by rw [c2F, fieldRows_length, rowCount_c2cfg]]
        norm_num)
    (by norm_num [c2cfg])
  simpa using h

/-- C3: for every run with equal boundary temperatures `T ≥ 0` and no hat
pulse, `heateqn` returns the field evolved from the all-zero row; every
produced entry lies in `[0, T]`, the temperature at each node is
non-decreasing from one step to the next, and it converges toward `T` as the
step count grows; in the concrete Aluminum scenario (10 nodes, length 1,
6000 s, boundaries 100/100) every node of the last produced row is within 2
of 100. -/
theorem heat_c3 (cfg : HeatConfig) (p : MatProps) (T : ℚ)
    (hp : mat_constants cfg.material = some p)
    (hk : 0 < p.conductivity) (hc : 0 < p.specificHeat) (hr : 0 < p.density)
    (hm : 2 ≤ cfg.numberOfSteps) (hL : 0 < cfg.length)
    (hbl : cfg.leftBoundary = T) (hbr : cfg.rightBoundary = T) (hT : 0 ≤ T)
    (hhat : cfg.hatFunction = false) :
    heateqn cfg =
      RunOutcome.field (fieldRows p cfg (List.replicate cfg.numberOfSteps 0)) ∧
    (∀ j, j < rowCount p cfg → ∀ i,
      ((fieldRows p cfg (List.replicate cfg.numberOfSteps 0)).getD j []).getD i 0 =
        nodeTemp p cfg j i) ∧
    (∀ j i, i < cfg.numberOfSteps →
      0 ≤ nodeTemp p cfg j i ∧ nodeTemp p cfg j i ≤ T) ∧
    (∀ j i, i < cfg.numberOfSteps →
      nodeTemp p cfg j i ≤ nodeTemp p cfg (j + 1) i) ∧
    (∀ i, i < cfg.numberOfSteps → ∀ ε : ℚ, 0 < ε →
      ∃ N, ∀ j, N ≤ j →
        0 ≤ T - nodeTemp p cfg j i ∧ T - nodeTemp p cfg j i ≤ ε) ∧
    (∀ i, i < 10 → |100 - (aluminumField.getD 109 []).getD i 0| ≤ 2) := by
  have hal : 0 < alphaprime p := by
    unfold alphaprime
    positivity
  have hal' : alphaprime p ≠ 0 := ne_of_gt hal
  have hmQ : (0 : ℚ) < (cfg.numberOfSteps : ℚ) := by
    have : (0 : ℕ) < cfg.numberOfSteps := by omega
    exact_mod_cast this
  have hdx : (0 : ℚ) < dxOf cfg := by
    unfold dxOf
    positivity
  have hdx' : dxOf cfg ≠ 0 := ne_of_gt hdx
  have hdt : (0 : ℚ) < dtOf p cfg := by
    unfold dtOf
    positivity
  refine ⟨?_, ?_, ?_, ?_, ?_, aluminum_lastRow_bound⟩
  · rw [heateqn_eq_core cfg p hp]
    exact heateqnCore_field_noHat p cfg (by omega) (ne_of_gt hdt) hhat (by omega)
  · intro j hj i
    rw [fieldRows_getD p cfg _ hj]
    rfl
  · intro j i hi
    rw [nodeTemp_eq_uZero p cfg T hbl hbr]
    exact uZero_bounds (alphaprime p) (dxOf cfg) T cfg.numberOfSteps hal' hdx' hm hT j i hi
  · intro j i hi
    rw [nodeTemp_eq_uZero p cfg T hbl hbr, nodeTemp_eq_uZero p cfg T hbl hbr]
    exact uZero_mono_succ (alphaprime p) (dxOf cfg) T cfg.numberOfSteps hal' hdx' hm hT j i hi
  · intro i hi ε hε
    obtain ⟨N, hN⟩ := uZero_tendsto (alphaprime p) (dxOf cfg) T cfg.numberOfSteps
      hal' hdx' hm hT i hi ε hε
    refine ⟨N, fun j hj => ?_⟩
    rw [nodeTemp_eq_uZero p cfg T hbl hbr]
    refine ⟨?_, hN j hj⟩
    have := (uZero_bounds (alphaprime p) (dxOf cfg) T cfg.numberOfSteps
      hal' hdx' hm hT j i hi).2
    linarith

theorem heat_c3_witness :
    0 ≤ nodeTemp aluminumProps aluminumCfg 5 3 ∧
      nodeTemp aluminumProps aluminumCfg 5 3 ≤ 100 :=
  (heat_c3 aluminumCfg aluminumProps 100 rfl
    (by norm_num [aluminumProps]) (by norm_num [aluminumProps])
    (by norm_num [aluminumProps]) (by norm_num [aluminumCfg])
    (by norm_num [aluminumCfg]) rfl rfl (by norm_num) rfl).2.2.1 5 3
    (by norm_num [aluminumCfg])

/-! ### C4: hat-pulse placement -/

/-- The concrete hat run refuting C4 as stated: Aluminum, 10 nodes, length 1,
60 s, boundaries 0/0, hat pulse 50 at location 1/4 with plateau 6. -/
def c4cfg : HeatConfig :=
  ⟨"Aluminum", 10, 1, 60, 0, 0, true, some 50, some (1 / 4), some 6⟩

theorem dtOf_congr (p : MatProps) (c c' : HeatConfig) (hL : c.length = c'.length)
    (hm : c.numberOfSteps = c'.numberOfSteps) : dtOf p c = dtOf p c' := by
  unfold dtOf dxOf
  rw [hL, hm]

theorem dt_c4cfg : dtOf aluminumProps c4cfg = 1242429 / 22594 :=
  (dtOf_congr aluminumProps c4cfg aluminumCfg rfl rfl).trans dt_aluminum

theorem rowCount_c4cfg : rowCount aluminumProps c4cfg = 2 := by
  rw [rowCount, dt_c4cfg]
  have hceil : Int.ceil ((c4cfg.time : ℚ) / (1242429 / 22594)) = 2 := by
    rw [Int.ceil_eq_iff]
    constructor
    · show ((2 : ℤ) : ℚ) - 1 < _
      norm_num [c4cfg]
    · show _ ≤ ((2 : ℤ) : ℚ)
      norm_num [c4cfg]
  rw [hceil]
  rfl

theorem hatRow_eval (m : ℕ) (xf T0 loc hl : ℚ) (d sc : ℤ)
    (hd : Int.ceil (hl / 2) = d)
    (hsc : pyTrunc (loc / xf * (m : ℚ) - 1) = sc) :
    hatRow m xf T0 loc hl = (List.range m).map
      (fun i => if sliceIndex m (sc - d) ≤ i ∧ i < sliceIndex m (sc + d)
        then T0 else 0) := by
  unfold hatRow
  rw [hd, hsc]

theorem hatRow_c4 : hatRow 10 1 50 (1 / 4) 6 = [0, 0, 0, 0, 0, 0, 0, 0, 0, 0] := by
  have hd : Int.ceil ((6 : ℚ) / 2) = 3 := by
    rw [Int.ceil_eq_iff]
    constructor
    · show ((3 : ℤ) : ℚ) - 1 < _
      norm_num
    · show _ ≤ ((3 : ℤ) : ℚ)
      norm_num
  have harg : (1 / 4 : ℚ) / 1 * ((10 : ℕ) : ℚ) - 1 = 3 / 2 := by
    push_cast
    norm_num
  have hsc : pyTrunc ((1 / 4 : ℚ) / 1 * ((10 : ℕ) : ℚ) - 1) = 1 := by
    rw [pyTrunc, harg, if_neg (by norm_num)]
    rw [Int.floor_eq_iff]
    constructor
    · show ((1 : ℤ) : ℚ) ≤ _
      norm_num
    · show _ < ((1 : ℤ) : ℚ) + 1
      norm_num
  rw [hatRow_eval 10 1 50 (1 / 4) 6 3 1 hd hsc]
  have hlo : sliceIndex 10 (1 - 3) = 8 := by decide
  have hhi : sliceIndex 10 (1 + 3) = 4 := by decide
  rw [hlo, hhi, show List.range 10 = [0, 1, 2, 3, 4, 5, 6, 7, 8, 9] from rfl]
  norm_num

theorem claimHatRow_c4 :
    claimHatRow 10 1 50 (1 / 4) 6 = [50, 50, 50, 50, 0, 0, 0, 0, 0, 0] := by
  have hd : Int.ceil ((6 : ℚ) / 2) = 3 := by
    rw [Int.ceil_eq_iff]
    constructor
    · show ((3 : ℤ) : ℚ) - 1 < _
      norm_num
    · show _ ≤ ((3 : ℤ) : ℚ)
      norm_num
  have harg : (1 / 4 : ℚ) / 1 * ((10 : ℕ) : ℚ) = 5 / 2 := by
    push_cast
    norm_num
  have hfl : Int.floor ((1 / 4 : ℚ) / 1 * ((10 : ℕ) : ℚ)) = 2 := by
    rw [harg, Int.floor_eq_iff]
    constructor
    · show ((2 : ℤ) : ℚ) ≤ _
      norm_num
    · show _ < ((2 : ℤ) : ℚ) + 1
      norm_num
  unfold claimHatRow
  rw [hd, hfl, show List.range 10 = [0, 1, 2, 3, 4, 5, 6, 7, 8, 9] from rfl]
  norm_num

/-- C4 counterexample: with a hat pulse of 50 at location 1/4, plateau 6, on
10 nodes, the claim's clamped placement sets nodes 0..3 to 50, but the
source resolves the Python slice bound `-2` to node 8, producing an empty
slice: the produced initial row is all zeros and differs from the claimed
row. -/
theorem heat_c4_counterexample :
    heateqn c4cfg = RunOutcome.field
      (fieldRows aluminumProps c4cfg (hatRow 10 1 50 (1 / 4) 6)) ∧
    (fieldRows aluminumProps c4cfg (hatRow 10 1 50 (1 / 4) 6)).getD 0 [] =
      [0, 0, 0, 0, 0, 0, 0, 0, 0, 0] ∧
    claimHatRow 10 1 50 (1 / 4) 6 = [50, 50, 50, 50, 0, 0, 0, 0, 0, 0] ∧
    (fieldRows aluminumProps c4cfg (hatRow 10 1 50 (1 / 4) 6)).getD 0 [] ≠
      claimHatRow 10 1 50 (1 / 4) 6 := by
  have h1 : heateqn c4cfg = RunOutcome.field
      (fieldRows aluminumProps c4cfg (hatRow 10 1 50 (1 / 4) 6)) := by
    rw [heateqn_eq_core c4cfg aluminumProps rfl]
    exact heateqnCore_field_hat aluminumProps c4cfg 50 (1 / 4) 6
      (by norm_num [c4cfg]) (by rw [dt_c4cfg]; norm_num) rfl rfl rfl rfl
      (by rw [rowCount_c4cfg]; norm_num)
      (by rw [rowCount_c4cfg]; norm_num [c4cfg])
  have h2 : (fieldRows aluminumProps c4cfg (hatRow 10 1 50 (1 / 4) 6)).getD 0 [] =
      [0, 0, 0, 0, 0, 0, 0, 0, 0, 0] := by
    rw [fieldRows_getD aluminumProps c4cfg _ (by rw [rowCount_c4cfg]; norm_num)]
    exact hatRow_c4
  refine ⟨h1, h2, claimHatRow_c4, ?_⟩
  rw [h2, claimHatRow_c4]
  norm_num

/-- C4 amended: for every run with a complete hat pulse, the initial row has
exactly the nodes in `[lo, hi)` set to `initialTemp` and all others zero,
where `centerIndex` is the Python `int(...)` truncation of
`(location/length)*numberOfNodes - 1`, `halfWidth = ceil(plateauLength/2)`,
and `lo`, `hi` resolve `centerIndex ∓ halfWidth` by Python slice rules: a
negative bound first has `numberOfNodes` added (wrapping toward the opposite
end), then both bounds clamp into `[0, numberOfNodes]`; no input is an
error. -/
theorem heat_c4 (cfg : HeatConfig) (p : MatProps) (T0 loc hl : ℚ)
    (hp : mat_constants cfg.material = some p)
    (hk : 0 < p.conductivity) (hc : 0 < p.specificHeat) (hr : 0 < p.density)
    (hm : 2 ≤ cfg.numberOfSteps) (hL : 0 < cfg.length) (ht : 0 < cfg.time)
    (hhat : cfg.hatFunction = true)
    (h0 : cfg.temperature0 = some T0) (h1 : cfg.locationOfTemp = some loc)
    (h2 : cfg.lengthOfHatFunction = some hl) :
    heateqn cfg = RunOutcome.field
      (fieldRows p cfg (hatRow cfg.numberOfSteps cfg.length T0 loc hl)) ∧
    ∀ i, i < cfg.numberOfSteps →
      ((fieldRows p cfg
          (hatRow cfg.numberOfSteps cfg.length T0 loc hl)).getD 0 []).getD i 0 =
        if sliceIndex cfg.numberOfSteps
            (pyTrunc (loc / cfg.length * (cfg.numberOfSteps : ℚ) - 1) -
              Int.ceil (hl / 2)) ≤ i ∧
           i < sliceIndex cfg.numberOfSteps
            (pyTrunc (loc / cfg.length * (cfg.numberOfSteps : ℚ) - 1) +
              Int.ceil (hl / 2))
        then T0 else 0 := by
  have hal : 0 < alphaprime p := by
    unfold alphaprime
    positivity
  have hmQ : (0 : ℚ) < (cfg.numberOfSteps : ℚ) := by
    have : (0 : ℕ) < cfg.numberOfSteps := by omega
    exact_mod_cast this
  have hdx : (0 : ℚ) < dxOf cfg := by
    unfold dxOf
    positivity
  have hdt : (0 : ℚ) < dtOf p cfg := by
    unfold dtOf
    positivity
  have hceil : 0 < Int.ceil (cfg.time / dtOf p cfg) :=
    Int.ceil_pos.mpr (div_pos ht hdt)
  have hn : 0 < rowCount p cfg := by
    unfold rowCount
    omega
  constructor
  · rw [heateqn_eq_core cfg p hp]
    exact heateqnCore_field_hat p cfg T0 loc hl (by omega) (ne_of_gt hdt) hhat
      h0 h1 h2 (by omega) (by omega)
  · intro i hi
    rw [fieldRows_getD p cfg _ hn]
    show (hatRow cfg.numberOfSteps cfg.length T0 loc hl).getD i 0 = _
    unfold hatRow
    rw [getD_range_map 0 _ hi]

theorem heat_c4_witness :
    heateqn c4cfg = RunOutcome.field
      (fieldRows aluminumProps c4cfg
        (hatRow c4cfg.numberOfSteps c4cfg.length 50 (1 / 4) 6)) ∧
    ∀ i, i < c4cfg.numberOfSteps →
      ((fieldRows aluminumProps c4cfg
          (hatRow c4cfg.numberOfSteps c4cfg.length 50 (1 / 4) 6)).getD 0 []).getD i 0 =
        if sliceIndex c4cfg.numberOfSteps
            (pyTrunc ((1 / 4) / c4cfg.length * (c4cfg.numberOfSteps : ℚ) - 1) -
              Int.ceil ((6 : ℚ) / 2)) ≤ i ∧
           i < sliceIndex c4cfg.numberOfSteps
            (pyTrunc ((1 / 4) / c4cfg.length * (c4cfg.numberOfSteps : ℚ) - 1) +
              Int.ceil ((6 : ℚ) / 2))
        then 50 else 0 :=
  heat_c4 c4cfg aluminumProps 50 (1 / 4) 6 rfl
    (by norm_num [aluminumProps]) (by norm_num [aluminumProps])
    (by norm_num [aluminumProps]) (by norm_num [c4cfg]) (by norm_num [c4cfg])
    (by norm_num [c4cfg]) rfl rfl rfl rfl

/-! ### C5 / C6: error handling -/

/-- An incomplete hat record: only `Temperature_0` supplied. -/
def c5cfg : HeatConfig :=
  ⟨"Aluminum", 10, 1, 6000, 100, 100, true, some 100, Option.none, Option.none⟩

/-- A non-positive duration, no validation in the source. -/
def c5cfgNegTime : HeatConfig :=
  ⟨"Aluminum", 10, 1, -1, 100, 100, false, Option.none, Option.none, Option.none⟩

theorem dt_c5cfg : dtOf aluminumProps c5cfg = 1242429 / 22594 :=
  (dtOf_congr aluminumProps c5cfg aluminumCfg rfl rfl).trans dt_aluminum

theorem dt_c5cfgNegTime : dtOf aluminumProps c5cfgNegTime = 1242429 / 22594 :=
  (dtOf_congr aluminumProps c5cfgNegTime aluminumCfg rfl rfl).trans dt_aluminum

theorem rowCount_c5cfgNegTime : rowCount aluminumProps c5cfgNegTime = 0 := by
  rw [rowCount, dt_c5cfgNegTime]
  have hceil : Int.ceil ((c5cfgNegTime.time : ℚ) / (1242429 / 22594)) = 0 := by
    rw [Int.ceil_eq_iff]
    constructor
    · show ((0 : ℤ) : ℚ) - 1 < _
      norm_num [c5cfgNegTime]
    · show _ ≤ ((0 : ℤ) : ℚ)
      norm_num [c5cfgNegTime]
  rw [hceil]
  rfl

/-- C5 (code bug): an incomplete hat record only triggers the constructor's
printed warning and the run proceeds, then crashes with a `TypeError` inside
the hat block; there is no `ConfigurationError` anywhere, and non-positive
`totalTime` is not rejected at all: the run returns an empty field. -/
theorem heat_c5 :
    hatWarning c5cfg = true ∧
    heateqn c5cfg = RunOutcome.hatCrash ∧
    heateqn c5cfgNegTime = RunOutcome.field [] := by
  refine ⟨rfl, ?_, ?_⟩
  · rw [heateqn_eq_core c5cfg aluminumProps rfl]
    unfold heateqnCore
    rw [if_neg (by simp [noneGuard]), if_neg (by norm_num [c5cfg]),
      if_neg (by rw [dt_c5cfg]; norm_num), if_pos (show c5cfg.hatFunction = true from rfl)]
    rfl
  · rw [heateqn_eq_core c5cfgNegTime aluminumProps rfl]
    rw [heateqnCore_field_noHat aluminumProps c5cfgNegTime
      (by norm_num [c5cfgNegTime]) (by rw [dt_c5cfgNegTime]; norm_num) rfl
      (by rw [rowCount_c5cfgNegTime]; omega)]
    unfold fieldRows
    rw [rowCount_c5cfgNegTime]
    rfl

/-- A material name absent from the seed dataset. -/
def c6cfg : HeatConfig :=
  ⟨"Aluminium", 10, 1, 6000, 100, 100, false, Option.none, Option.none, Option.none⟩

/-- C6 (code bug): a missing material is detected before any stepping begins
and no field, partial or otherwise, is produced, and the lookup failure path
lists every valid material name; but the run aborts through the `TypeError`
raised when the `None` returned by `mat_constants` is tuple-unpacked, not
through the typed `None`-guard: that guard is unreachable for every
configuration. -/
theorem heat_c6 :
    mat_constants "Aluminium" = Option.none ∧
    heateqn c6cfg = RunOutcome.unpackCrash ∧
    (∀ cfg : HeatConfig, heateqn cfg ≠ RunOutcome.guardReturn) ∧
    "Aluminum" ∈ lookupFailureNames := by
  refine ⟨rfl, rfl, ?_, by decide⟩
  intro cfg
  unfold heateqn
  cases hmc : mat_constants cfg.material with
  | none => simp
  | some p =>
    dsimp only
    unfold heateqnCore
    rw [if_neg (by simp [noneGuard])]
    split_ifs <;> (try simp) <;> (split <;> simp)

/-! ### C7: field shape -/

/-- C7: the produced field has `⌈totalTime/dt⌉` rows (the ascending samples
`0, dt, 2dt, ...` strictly below `totalTime`), `numberOfNodes` columns, and
without a hat pulse its initial row is the zero row the field was allocated
with. -/
theorem heat_c7 (cfg : HeatConfig) (p : MatProps)
    (hp : mat_constants cfg.material = some p)
    (hk : 0 < p.conductivity) (hc : 0 < p.specificHeat) (hr : 0 < p.density)
    (hm : 2 ≤ cfg.numberOfSteps) (hL : 0 < cfg.length) (ht : 0 < cfg.time)
    (hhat : cfg.hatFunction = false ∨
      ∃ T0 loc hl, cfg.temperature0 = some T0 ∧ cfg.locationOfTemp = some loc ∧
        cfg.lengthOfHatFunction = some hl) :
    ∃ F, heateqn cfg = RunOutcome.field F ∧
      (F.length : ℤ) = Int.ceil (cfg.time / dtOf p cfg) ∧
      (∀ r, r ∈ F → r.length = cfg.numberOfSteps) ∧
      (cfg.hatFunction = false → F.getD 0 [] = List.replicate cfg.numberOfSteps 0) := by
  have hal : 0 < alphaprime p := by
    unfold alphaprime
    positivity
  have hmQ : (0 : ℚ) < (cfg.numberOfSteps : ℚ) := by
    have : (0 : ℕ) < cfg.numberOfSteps := by omega
    exact_mod_cast this
  have hdx : (0 : ℚ) < dxOf cfg := by
    unfold dxOf
    positivity
  have hdt : (0 : ℚ) < dtOf p cfg := by
    unfold dtOf
    positivity
  have hceil : 0 < Int.ceil (cfg.time / dtOf p cfg) :=
    Int.ceil_pos.mpr (div_pos ht hdt)
  have hrc : (rowCount p cfg : ℤ) = Int.ceil (cfg.time / dtOf p cfg) := by
    unfold rowCount
    omega
  have hn : 0 < rowCount p cfg := by omega
  by_cases hhf : cfg.hatFunction = true
  · obtain ⟨T0, loc, hl, h0, h1, h2⟩ := hhat.resolve_left (by simp [hhf])
    refine ⟨_, by
      rw [heateqn_eq_core cfg p hp]
      exact heateqnCore_field_hat p cfg T0 loc hl (by omega) (ne_of_gt hdt) hhf
        h0 h1 h2 (by omega) (by omega), ?_, ?_, ?_⟩
    · rw [fieldRows_length]
      exact hrc
    · intro r hr
      unfold fieldRows at hr
      rw [List.mem_map] at hr
      obtain ⟨j, _, rfl⟩ := hr
      exact heatIter_length _ _ _ _ _ _ _ (hatRow_length _ _ _ _ _) j
    · intro hfalse
      rw [hfalse] at hhf
      cases hhf
  · have hno : cfg.hatFunction = false := by
      revert hhf
      cases cfg.hatFunction <;> simp
    refine ⟨_, by
      rw [heateqn_eq_core cfg p hp]
      exact heateqnCore_field_noHat p cfg (by omega) (ne_of_gt hdt) hno
        (by omega), ?_, ?_, ?_⟩
    · rw [fieldRows_length]
      exact hrc
    · intro r hr
      unfold fieldRows at hr
      rw [List.mem_map] at hr
      obtain ⟨j, _, rfl⟩ := hr
      exact heatIter_length _ _ _ _ _ _ _ (List.length_replicate _ _) j
    · intro _
      rw [fieldRows_getD p cfg _ hn]
      rfl

theorem heat_c7_witness :
    ∃ F, heateqn aluminumCfg = RunOutcome.field F ∧
      (F.length : ℤ) = Int.ceil (aluminumCfg.time / dtOf aluminumProps aluminumCfg) ∧
      (∀ r, r ∈ F → r.length = aluminumCfg.numberOfSteps) ∧
      (aluminumCfg.hatFunction = false →
        F.getD 0 [] = List.replicate aluminumCfg.numberOfSteps 0) :=
  heat_c7 aluminumCfg aluminumProps rfl
    (by norm_num [aluminumProps]) (by norm_num [aluminumProps])
    (by norm_num [aluminumProps]) (by norm_num [aluminumCfg])
    (by norm_num [aluminumCfg]) (by norm_num [aluminumCfg]) (Or.inl rfl)

/-! ### C8 / C9: geometry -/

/-- C8: `area` computes the closed-form value of every supported shape with
case-insensitive name matching — ellipse `π·a·b`, rectangle `a·b`,
equilateral triangle `(√3/4)·a²`, regular hexagon `(3√3/2)·a²` — and yields
the unsupported signal for every other name; in particular
`area "ellipse" (2,3) = 6π`, `area "ellipse" (2,0) = 0`, and
`area "Pentagon" (2,1)` is unsupported. -/
theorem heat_c8 :
    (∀ (s : String) (a b : ℝ), lowerStr s = "ellipse" → 0 < a → 0 < b →
      area s a b = some (Real.pi * a * b)) ∧
    (∀ (s : String) (a b : ℝ), lowerStr s = "rectangle" → 0 < a → 0 < b →
      area s a b = some (a * b)) ∧
    (∀ (s : String) (a b : ℝ), lowerStr s = "triangle" → 0 < a → 0 < b →
      area s a b = some (Real.sqrt 3 / 4 * a ^ 2)) ∧
    (∀ (s : String) (a b : ℝ), lowerStr s = "hexagon" → 0 < a → 0 < b →
      area s a b = some (3 * Real.sqrt 3 / 2 * a ^ 2)) ∧
    (∀ (s : String) (a b : ℝ), lowerStr s ≠ "ellipse" → lowerStr s ≠ "rectangle" →
      lowerStr s ≠ "triangle" → lowerStr s ≠ "hexagon" →
      area s a b = Option.none) ∧
    area "ellipse" 2 3 = some (6 * Real.pi) ∧
    area "ellipse" 2 0 = some 0 ∧
    area "Pentagon" 2 1 = Option.none := by
  refine ⟨?_, ?_, ?_, ?_, ?_, ?_, ?_, ?_⟩
  · intro s a b h _ _
    unfold area
    rw [h, if_pos rfl]
  · intro s a b h _ _
    unfold area
    rw [h, if_neg (by decide), if_pos rfl]
  · intro s a b h _ _
    unfold area
    rw [h, if_neg (by decide), if_neg (by decide), if_pos rfl]
  · intro s a b h _ _
    unfold area
    rw [h, if_neg (by decide), if_neg (by decide), if_neg (by decide), if_pos rfl]
  · intro s a b h1 h2 h3 h4
    unfold area
    rw [if_neg h1, if_neg h2, if_neg h3, if_neg h4]
  · unfold area
    rw [if_pos (show lowerStr "ellipse" = "ellipse" from rfl)]
    congr 1
    ring
  · unfold area
    rw [if_pos (show lowerStr "ellipse" = "ellipse" from rfl)]
    congr 1
    ring
  · unfold area
    rw [if_neg (by decide), if_neg (by decide), if_neg (by decide),
      if_neg (by decide)]

theorem heat_c8_witness :
    area "Ellipse" 2 3 = some (Real.pi * 2 * 3) ∧
    area "TRIANGLE" 2 1 = some (Real.sqrt 3 / 4 * 2 ^ 2) :=
  ⟨heat_c8.1 "Ellipse" 2 3 (by decide) (by norm_num) (by norm_num),
   heat_c8.2.2.1 "TRIANGLE" 2 1 (by decide) (by norm_num) (by norm_num)⟩

/-- C9 (code bug): for every single-length shape profile `(a,)` the
constructor stores the nested tuple `((a,), 0)`, not the claimed `(a, 0)`,
and the subsequent `area` call on a triangle or hexagon profile raises a
`TypeError` (`a ** 2` with `a` a tuple) instead of computing the closed
form from `a`. -/
theorem heat_c9 :
    ∀ a : ℝ,
      initShapeLengths [PyVal.num a] = [PyVal.tup [PyVal.num a], PyVal.num 0] ∧
      initShapeLengths [PyVal.num a] ≠ [PyVal.num a, PyVal.num 0] ∧
      areaSingleLen "triangle" (initShapeLengths [PyVal.num a]) = Option.none ∧
      areaSingleLen "hexagon" (initShapeLengths [PyVal.num a]) = Option.none := by
  intro a
  refine ⟨rfl, ?_, ?_, ?_⟩
  · intro h
    rw [initShapeLengths] at h
    simp at h
  · rfl
  · rfl

/-! ### C10: the hat parameters cannot influence a no-hat run -/

/-- C10: two configurations identical except in `Temperature_0`,
`Location_of_Temp` and `Length_Of_Hat_Function`, both with the hat flag off,
produce the identical outcome (in particular the identical temperature
field); the display scale `Th` is computed from whether `Temperature_0` is
supplied and the boundary temperatures, never from the hat flag, so it too
agrees whenever `Temperature_0` agrees. -/
theorem heat_c10 (c1 c2 : HeatConfig)
    (hmat : c1.material = c2.material)
    (hns : c1.numberOfSteps = c2.numberOfSteps)
    (hL : c1.length = c2.length) (ht : c1.time = c2.time)
    (hbl : c1.leftBoundary = c2.leftBoundary)
    (hbr : c1.rightBoundary = c2.rightBoundary)
    (hf1 : c1.hatFunction = false) (hf2 : c2.hatFunction = false) :
    heateqn c1 = heateqn c2 ∧
    (c1.temperature0 = c2.temperature0 → computeTh c1 = computeTh c2) := by
  obtain ⟨mat1, n1, L1, t1, bl1, br1, f1, T1, loc1, hl1⟩ := c1
  obtain ⟨mat2, n2, L2, t2, bl2, br2, f2, T2, loc2, hl2⟩ := c2
  dsimp only at hmat hns hL ht hbl hbr hf1 hf2
  subst hmat hns hL ht hbl hbr hf1 hf2
  constructor
  · unfold heateqn
    cases hmc : mat_constants mat1 with
    | none => rfl
    | some p =>
      dsimp only
      unfold heateqnCore
      rfl
  · intro h
    dsimp only at h
    subst h
    rfl

/-- Two runs differing only in the hat parameters, hat flag off in both. -/
def c10a : HeatConfig :=
  ⟨"Aluminum", 10, 1, 60, 0, 100, false, Option.none, Option.none, Option.none⟩

/-- As `c10a` but with hat parameters supplied (flag still off). -/
def c10b : HeatConfig :=
  ⟨"Aluminum", 10, 1, 60, 0, 100, false, some 42, some 1, some 2⟩

theorem heat_c10_witness :
    heateqn c10a = heateqn c10b ∧
    (c10a.temperature0 = c10b.temperature0 → computeTh c10a = computeTh c10b) :=
  heat_c10 c10a c10b rfl rfl rfl rfl rfl rfl rfl rfl

end HeatCalc
